import Mathlib

/-!
Verification of the nekokan_music ingestion/query tooling.

Shallow embedding of `src/doc_regist.py`, `src/query.py` and `src/json_chk.py`:
JSON album records become Lean structures (keys that a record may omit are
`Option` fields, and reading an absent key is an explicit error, mirroring
Python's `KeyError`/`IndexError`); the connection-retry loop and the
ledger-driven main loop become explicit state-passing functions whose inputs
(per-attempt outcomes, per-file parse/submit outcomes) abstract the external
vector store and filesystem.
-/

/-! ### Data model (`src/doc_regist.py`, JSON album records) -/

/-- An entry of a personnel role list: a JSON object with a `name` key. -/
structure Person where
  name : String
deriving Repr, DecidableEq

/-- The `personnel` mapping: each role key may be absent (`none`) or present
with an ordered list of `Person` entries (possibly empty). -/
structure Personnel where
  leader : Option (List Person)
  sidemen : Option (List Person)
  conductor : Option (List Person)
  orchestra : Option (List Person)
  soloists : Option (List Person)
deriving Repr, DecidableEq

/-- The empty personnel dict. -/
def Personnel.emptyDict : Personnel := ⟨none, none, none, none, none⟩

/-- Python truthiness of the personnel dict: `not personnel` holds exactly
when the dict has no keys at all. -/
def Personnel.isEmptyDict (p : Personnel) : Bool :=
  p.leader.isNone && p.sidemen.isNone && p.conductor.isNone &&
    p.orchestra.isNone && p.soloists.isNone

/-- A track object: `no`, optional `disc_no`, `title`, `composer`. -/
structure Track where
  no : Int
  disc_no : Option Int
  title : String
  composer : List String
deriving Repr, DecidableEq

/-- An album record as loaded from a JSON file.  `release_year` is optional
because source records may omit the key; reading it then raises `KeyError`
in the Python code. -/
structure Album where
  id : String
  title : String
  label : String
  release_year : Option Int
  record_year : List Int
  score : Int
  comment : String
  personnel : Option Personnel
  tracks : List Track
deriving Repr, DecidableEq

/-! ### Personnel formatter (`_personnel_to_text`, `_primary_artist`) -/

/-- Names of a role list, as extracted by `[p["name"] for p in ...]`. -/
def namesOf (l : List Person) : List String := l.map Person.name

/-- Embedding of `_personnel_to_text` (doc_regist.py lines 11-33).  A role
contributes a part exactly when its key is present and its list is truthy
(non-empty), in the fixed order leader, sidemen, conductor, orchestra,
soloists. -/
def personnelToText (personnel : Personnel) : String :=
  if personnel.isEmptyDict then ""
  else
    let parts : List String := []
    let parts := match personnel.leader with
      | some (p :: ps) => parts ++ ["Leader: " ++ String.intercalate ", " (namesOf (p :: ps))]
      | _ => parts
    let parts := match personnel.sidemen with
      | some (p :: ps) => parts ++ ["Sidemen: " ++ String.intercalate ", " (namesOf (p :: ps))]
      | _ => parts
    let parts := match personnel.conductor with
      | some (p :: ps) => parts ++ ["Conductor: " ++ String.intercalate ", " (namesOf (p :: ps))]
      | _ => parts
    let parts := match personnel.orchestra with
      | some (p :: ps) => parts ++ ["Orchestra: " ++ String.intercalate ", " (namesOf (p :: ps))]
      | _ => parts
    let parts := match personnel.soloists with
      | some (p :: ps) => parts ++ ["Soloists: " ++ String.intercalate ", " (namesOf (p :: ps))]
      | _ => parts
    if parts = [] then ""
    else "Personnel: " ++ String.intercalate "; " parts ++ ". "

/-- A role category is present and non-empty (Python `k in d and d[k]`). -/
def presentNonEmpty : Option (List Person) → Bool
  | some (_ :: _) => true
  | _ => false

/-- The parts list as the spec describes it: each present, non-empty role
category, in the fixed order, contributes a segment
`Role ++ ": " ++ comma-joined names`. -/
def spec_parts (personnel : Personnel) : List String :=
  let cats : List (String × Option (List Person)) :=
    [("Leader", personnel.leader), ("Sidemen", personnel.sidemen),
     ("Conductor", personnel.conductor), ("Orchestra", personnel.orchestra),
     ("Soloists", personnel.soloists)]
  cats.filterMap fun c =>
    match c.2 with
    | some (p :: ps) => some (c.1 ++ ": " ++ String.intercalate ", " (namesOf (p :: ps)))
    | _ => none

/-- The spec's description of `format_personnel` (spec section 4.1), written
from the spec's words to be compared with the code's `personnelToText`:
join all present parts with a semicolon separator, with the fixed marker
text around them; empty text when no category is present. -/
def format_personnel_spec (personnel : Personnel) : String :=
  if spec_parts personnel = [] then ""
  else "Personnel: " ++ String.intercalate "; " (spec_parts personnel) ++ ". "

/-- Embedding of `_primary_artist` (doc_regist.py lines 36-44): first
soloist if any, else first leader if any, else empty. -/
def primaryArtist (personnel : Personnel) : String :=
  if personnel.isEmptyDict then ""
  else
    match personnel.soloists with
    | some (p :: _) => p.name
    | _ =>
      match personnel.leader with
      | some (p :: _) => p.name
      | _ => ""

/-! ### Score mapping and document synthesis (`calculate_passage`, `register_doc`) -/

/-- Embedding of `calculate_passage` (doc_regist.py lines 46-60). -/
def calculate_passage (score : Int) : String :=
  if score = 6 then "評価: 殿堂入り、最高、至高。"
  else if score = 5 then "評価: 大変良い。"
  else if score = 4 then "評価: 良い。"
  else if score = 3 then "評価: 普通。"
  else if score = 2 then "評価: 悪い。"
  else if score = 1 then "評価: 大変悪い。"
  else "評価: 不明。"

/-- The per-track search document (doc_regist.py lines 83-90), given the
album, the precomputed personnel text and the track. -/
def doc_content (a : Album) (personnelText : String) (t : Track) : String :=
  "passage: " ++ calculate_passage a.score ++
  "Title: " ++ a.title ++ " - " ++ t.title ++ ". " ++
  personnelText ++
  "Composer: " ++ String.intercalate ", " t.composer ++ ". " ++
  "score: " ++ toString a.score ++ ". " ++
  "Review: " ++ a.comment

/-- The flat per-track metadata record (doc_regist.py lines 95-104). -/
structure Metadata where
  album_id : String
  label : String
  release_year : Int
  record_year : String
  disc_no : Int
  track_no : Int
  soloist : String
  primary_composer : String
deriving Repr, DecidableEq

/-- The generated identifier (doc_regist.py line 107):
`str(disc_no) + "_" + album_id + "_T" + str(track_no)`. -/
def trackId (discNo : Int) (albumId : String) (trackNo : Int) : String :=
  toString discNo ++ "_" ++ albumId ++ "_T" ++ toString trackNo

/-- One loop iteration of `register_doc` (lines 81-107) for a single track:
builds the document text, the metadata record and the id.  Reading an
absent key raises, in the order Python evaluates the accesses
(`release_year` in the metadata literal, then `disc_no`, then
`composer[0]`). -/
def trackTriple (a : Album) (personnelText primArt : String) (t : Track) :
    Except String (String × Metadata × String) :=
  let doc := doc_content a personnelText t
  match a.release_year with
  | none => .error "KeyError: release_year"
  | some ry =>
    match t.disc_no with
    | none => .error "KeyError: disc_no"
    | some dn =>
      match t.composer with
      | [] => .error "IndexError: composer"
      | c0 :: _ =>
        .ok (doc,
          { album_id := a.id, label := a.label, release_year := ry,
            record_year := String.intercalate ", " (a.record_year.map toString),
            disc_no := dn, track_no := t.no, soloist := primArt,
            primary_composer := c0 },
          trackId dn a.id t.no)

/-- The track loop of `register_doc`: processes tracks in order, stopping at
the first raising track (Python propagates the exception). -/
def synthTracks (a : Album) (personnelText primArt : String) :
    List Track → Except String (List String × List Metadata × List String)
  | [] => .ok ([], [], [])
  | t :: ts =>
    match trackTriple a personnelText primArt t with
    | .error e => .error e
    | .ok (d, m, i) =>
      match synthTracks a personnelText primArt ts with
      | .error e => .error e
      | .ok (ds, ms, ids) => .ok (d :: ds, m :: ms, i :: ids)

/-- Python `raw_data.get("personnel") or {}` (lines 73-74). -/
def personnelOrEmpty (a : Album) : Personnel := a.personnel.getD Personnel.emptyDict

/-- Document synthesis of `register_doc` (lines 73-107): personnel text and
primary artist are computed once per album, then every track yields a
(document, metadata, id) triple. -/
def synthesize (a : Album) : Except String (List String × List Metadata × List String) :=
  synthTracks a (personnelToText (personnelOrEmpty a)) (primaryArtist (personnelOrEmpty a))
    a.tracks

/-! ### Claims C6, C7, C8: personnel formatter and score mapping -/

/-- C6: for every personnel mapping, `_personnel_to_text` emits one
`Role: names` segment per present, non-empty role category in the fixed
order leader, sidemen, conductor, orchestra, soloists, joined with a
semicolon separator and wrapped in the fixed marker text (this is the
spec-side `format_personnel_spec`); it returns the empty string when no
category is present, and when only leader and sidemen are present every
segment is a Leader or Sidemen segment. -/
theorem personnel_format_correct :
    (∀ p : Personnel, personnelToText p = format_personnel_spec p) ∧
    (∀ p : Personnel,
       presentNonEmpty p.leader = false → presentNonEmpty p.sidemen = false →
       presentNonEmpty p.conductor = false → presentNonEmpty p.orchestra = false →
       presentNonEmpty p.soloists = false → personnelToText p = "") ∧
    (∀ p : Personnel,
       presentNonEmpty p.conductor = false → presentNonEmpty p.orchestra = false →
       presentNonEmpty p.soloists = false →
       ∀ s ∈ spec_parts p, (∃ r, s = "Leader: " ++ r) ∨ (∃ r, s = "Sidemen: " ++ r)) := by
  refine ⟨?_, ?_, ?_⟩
  · rintro ⟨(_ | (_ | ⟨p1, t1⟩)), (_ | (_ | ⟨p2, t2⟩)), (_ | (_ | ⟨p3, t3⟩)),
      (_ | (_ | ⟨p4, t4⟩)), (_ | (_ | ⟨p5, t5⟩))⟩ <;> rfl
  · rintro ⟨(_ | (_ | ⟨p1, t1⟩)), (_ | (_ | ⟨p2, t2⟩)), (_ | (_ | ⟨p3, t3⟩)),
      (_ | (_ | ⟨p4, t4⟩)), (_ | (_ | ⟨p5, t5⟩))⟩ h1 h2 h3 h4 h5 <;>
      first
        | rfl
        | simp [presentNonEmpty] at h1 h2 h3 h4 h5
  · rintro ⟨l, sm, c, o, so⟩ h1 h2 h3 s hs
    rcases c with _ | (_ | ⟨x, xs⟩)
    rotate_left 2
    · simp [presentNonEmpty] at h1
    all_goals rcases o with _ | (_ | ⟨y, ys⟩)
    rotate_left 2
    any_goals simp [presentNonEmpty] at h2
    all_goals rcases so with _ | (_ | ⟨z, zs⟩)
    any_goals simp [presentNonEmpty] at h3
    all_goals rcases l with _ | (_ | ⟨a, as⟩) <;> rcases sm with _ | (_ | ⟨b, bs⟩) <;>
      simp [spec_parts] at hs <;>
      rcases hs with rfl | rfl <;>
      first
        | exact Or.inl ⟨_, rfl⟩
        | exact Or.inr ⟨_, rfl⟩

/-- A personnel dict with only leader and sidemen. -/
def c6Personnel : Personnel := ⟨some [⟨"A"⟩], some [⟨"B"⟩], none, none, none⟩

/-- Witness for C6 at concrete personnel values. -/
theorem personnel_format_witness :
    personnelToText Personnel.emptyDict = "" ∧
    ((∃ r, "Leader: A" = "Leader: " ++ r) ∨ (∃ r, "Leader: A" = "Sidemen: " ++ r)) ∧
    personnelToText c6Personnel = format_personnel_spec c6Personnel :=
  ⟨personnel_format_correct.2.1 Personnel.emptyDict rfl rfl rfl rfl rfl,
   personnel_format_correct.2.2 c6Personnel rfl rfl rfl "Leader: A" (by decide),
   personnel_format_correct.1 c6Personnel⟩

/-- C7: `_primary_artist` returns the first soloist's name whenever the
soloists list is non-empty (regardless of leader content); otherwise the
first leader's name when the leader list is non-empty; otherwise the empty
string. -/
theorem primary_artist_correct :
    (∀ (p : Personnel) (s : Person) (rest : List Person),
       p.soloists = some (s :: rest) → primaryArtist p = s.name) ∧
    (∀ (p : Personnel) (l : Person) (rest : List Person),
       presentNonEmpty p.soloists = false → p.leader = some (l :: rest) →
       primaryArtist p = l.name) ∧
    (∀ p : Personnel, presentNonEmpty p.soloists = false →
       presentNonEmpty p.leader = false → primaryArtist p = "") := by
  refine ⟨?_, ?_, ?_⟩
  · rintro ⟨l, sm, c, o, so⟩ s rest h
    cases h
    simp [primaryArtist, Personnel.isEmptyDict]
  · rintro ⟨l, sm, c, o, so⟩ a rest h1 h2
    cases h2
    rcases so with _ | (_ | ⟨z, zs⟩)
    · simp [primaryArtist, Personnel.isEmptyDict]
    · simp [primaryArtist, Personnel.isEmptyDict]
    · simp [presentNonEmpty] at h1
  · rintro ⟨l, sm, c, o, so⟩ h1 h2
    rcases so with _ | (_ | ⟨z, zs⟩)
    rotate_left 2
    · simp [presentNonEmpty] at h1
    all_goals rcases l with _ | (_ | ⟨a, as⟩)
    any_goals simp [presentNonEmpty] at h2
    all_goals unfold primaryArtist
    all_goals split <;> rfl

/-- A personnel dict where both soloists and leader are non-empty. -/
def c7Both : Personnel := ⟨some [⟨"Lee"⟩], none, none, none, some [⟨"Jane"⟩]⟩

/-- A personnel dict with a leader but no soloists. -/
def c7LeaderOnly : Personnel := ⟨some [⟨"Lee"⟩], none, none, none, none⟩

/-- Witness for C7 at concrete personnel values. -/
theorem primary_artist_witness :
    primaryArtist c7Both = "Jane" ∧ primaryArtist c7LeaderOnly = "Lee" ∧
    primaryArtist Personnel.emptyDict = "" :=
  ⟨primary_artist_correct.1 c7Both ⟨"Jane"⟩ [] rfl,
   primary_artist_correct.2.1 c7LeaderOnly ⟨"Lee"⟩ [] rfl rfl,
   primary_artist_correct.2.2 Personnel.emptyDict rfl rfl⟩

/-- C8: `calculate_passage` maps each score 1..6 to its fixed string and
every other integer to the unknown string, and every synthesized document
begins with the marker "passage: " immediately followed by that string. -/
theorem score_text_correct :
    (calculate_passage 6 = "評価: 殿堂入り、最高、至高。" ∧ calculate_passage 5 = "評価: 大変良い。" ∧
     calculate_passage 4 = "評価: 良い。" ∧ calculate_passage 3 = "評価: 普通。" ∧
     calculate_passage 2 = "評価: 悪い。" ∧ calculate_passage 1 = "評価: 大変悪い。") ∧
    (∀ s : Int, s ∉ ([1, 2, 3, 4, 5, 6] : List Int) → calculate_passage s = "評価: 不明。") ∧
    (∀ (a : Album) (pt : String) (t : Track),
       ∃ r, doc_content a pt t = ("passage: " ++ calculate_passage a.score) ++ r) := by
  refine ⟨by decide, ?_, ?_⟩
  · intro s h
    simp only [List.mem_cons, List.not_mem_nil, or_false] at h
    push_neg at h
    obtain ⟨h1, h2, h3, h4, h5, h6⟩ := h
    simp [calculate_passage, h1, h2, h3, h4, h5, h6]
  · intro a pt t
    refine ⟨"Title: " ++ (a.title ++ (" - " ++ (t.title ++ (". " ++ (pt ++
      ("Composer: " ++ (String.intercalate ", " t.composer ++
      (". score: " ++ (toString a.score ++ (". Review: " ++ a.comment)))))))))), ?_⟩
    simp [doc_content, String.append_assoc]

/-- A small album record used to instantiate C8. -/
def c8Album : Album := ⟨"A", "T", "L", some 1999, [1960], 7, "c", none, []⟩

/-- A small track used to instantiate C8. -/
def c8Track : Track := ⟨1, some 1, "x", ["B"]⟩

/-- Witness for C8: an out-of-range score maps to the unknown string, and a
concrete document starts with the marker and the score text. -/
theorem score_text_witness :
    calculate_passage 0 = "評価: 不明。" ∧
    (∃ r, doc_content c8Album "" c8Track =
      ("passage: " ++ calculate_passage c8Album.score) ++ r) :=
  ⟨score_text_correct.2.1 0 (by decide),
   score_text_correct.2.2 c8Album "" c8Track⟩

/-! ### Decimal representation facts, for identifier uniqueness (C2)

The generated id interpolates Python `str(int)`; its Lean counterpart is
`toString : Int → String`.  The lemmas below establish that decimal digit
strings are injective, never contain an underscore, and that an integer
rendering never collides with a negative sign, so that splitting a
generated id at its first underscore is unambiguous. -/

/-- Decimal decoding of a digit-char list. -/
def decDigits (l : List Char) : Nat := l.foldl (fun a c => 10 * a + (c.toNat - 48)) 0

lemma digitChar_facts (d : Nat) (h : d < 10) :
    (Nat.digitChar d).toNat - 48 = d ∧ Nat.digitChar d ≠ '_' ∧ Nat.digitChar d ≠ '-' := by
  interval_cases d <;> exact ⟨by decide, by decide, by decide⟩

lemma toDigitsCore_acc (b : Nat) :
    ∀ (fuel n : Nat) (ds : List Char),
      Nat.toDigitsCore b fuel n ds = Nat.toDigitsCore b fuel n [] ++ ds := by
  intro fuel
  induction fuel with
  | zero => intro n ds; simp [Nat.toDigitsCore]
  | succ f ih =>
    intro n ds
    simp only [Nat.toDigitsCore]
    by_cases h : n / b = 0
    · simp [h]
    · simp only [h, if_false]
      rw [ih (n / b) (Nat.digitChar (n % b) :: ds), ih (n / b) [Nat.digitChar (n % b)]]
      simp

lemma toDigitsCore_fuel (b : Nat) (hb : 2 ≤ b) :
    ∀ (f1 f2 n : Nat) (ds : List Char), n < f1 → n < f2 →
      Nat.toDigitsCore b f1 n ds = Nat.toDigitsCore b f2 n ds := by
  intro f1
  induction f1 with
  | zero => intro f2 n ds h1 h2; omega
  | succ f ih =>
    intro f2 n ds h1 h2
    cases f2 with
    | zero => omega
    | succ g =>
      simp only [Nat.toDigitsCore]
      by_cases h : n / b = 0
      · simp [h]
      · simp only [h, if_false]
        have hn : 0 < n := by
          rcases Nat.eq_zero_or_pos n with rfl | hp
          · exact absurd (Nat.zero_div b) h
          · exact hp
        have hlt : n / b < n := Nat.div_lt_self hn (by omega)
        exact ih g (n / b) _ (by omega) (by omega)

lemma decode_toDigits : ∀ n : Nat, decDigits (Nat.toDigits 10 n) = n := by
  intro n
  induction n using Nat.strong_induction_on with
  | _ n ih =>
    unfold Nat.toDigits
    simp only [Nat.toDigitsCore]
    by_cases h : n / 10 = 0
    · have hn : n < 10 := by omega
      simp only [h, if_true]
      have hd := (digitChar_facts (n % 10) (Nat.mod_lt _ (by norm_num))).1
      simp [decDigits, hd]
      omega
    · simp only [h, if_false]
      have hlt : n / 10 < n := Nat.div_lt_self (by omega) (by norm_num)
      rw [toDigitsCore_fuel 10 (by norm_num) n (n / 10 + 1) (n / 10) _ (by omega) (by omega)]
      rw [toDigitsCore_acc 10 (n / 10 + 1) (n / 10) [Nat.digitChar (n % 10)]]
      have h1 := ih (n / 10) hlt
      unfold Nat.toDigits at h1
      unfold decDigits at h1 ⊢
      rw [List.foldl_append, h1]
      have hd := (digitChar_facts (n % 10) (Nat.mod_lt _ (by norm_num))).1
      simp [hd]
      omega

lemma toDigits_inj {m n : Nat} (h : Nat.toDigits 10 m = Nat.toDigits 10 n) : m = n := by
  have hm := decode_toDigits m
  rw [h, decode_toDigits n] at hm
  omega

lemma toDigitsCore_mem :
    ∀ (fuel n : Nat) (ds : List Char) (c : Char), c ∈ Nat.toDigitsCore 10 fuel n ds →
      c ∈ ds ∨ ∃ d, d < 10 ∧ c = Nat.digitChar d := by
  intro fuel
  induction fuel with
  | zero => intro n ds c h; exact Or.inl h
  | succ f ih =>
    intro n ds c h
    simp only [Nat.toDigitsCore] at h
    by_cases hz : n / 10 = 0
    · rw [if_pos hz] at h
      rcases List.mem_cons.mp h with rfl | h2
      · exact Or.inr ⟨n % 10, Nat.mod_lt _ (by norm_num), rfl⟩
      · exact Or.inl h2
    · rw [if_neg hz] at h
      rcases ih (n / 10) _ c h with h2 | h2
      · rcases List.mem_cons.mp h2 with rfl | h3
        · exact Or.inr ⟨n % 10, Nat.mod_lt _ (by norm_num), rfl⟩
        · exact Or.inl h3
      · exact Or.inr h2

lemma toDigits_no_special {n : Nat} {c : Char} (h : c ∈ Nat.toDigits 10 n) :
    c ≠ '_' ∧ c ≠ '-' := by
  rcases toDigitsCore_mem _ _ _ _ h with h1 | ⟨d, hd, rfl⟩
  · simp at h1
  · exact ⟨(digitChar_facts d hd).2.1, (digitChar_facts d hd).2.2⟩

/-- The character list behind Python `str(int)` / Lean `toString : Int → String`. -/
def intChars : Int → List Char
  | .ofNat m => Nat.toDigits 10 m
  | .negSucc m => '-' :: Nat.toDigits 10 (m + 1)

lemma toString_int_data (i : Int) : (toString i).data = intChars i := by
  cases i with
  | ofNat m => rfl
  | negSucc m => rfl

lemma intChars_inj {i j : Int} (h : intChars i = intChars j) : i = j := by
  cases i with
  | ofNat m =>
    cases j with
    | ofNat n => simp only [intChars] at h; rw [toDigits_inj h]
    | negSucc n =>
      exfalso
      simp only [intChars] at h
      have hm : '-' ∈ Nat.toDigits 10 m := by rw [h]; exact List.mem_cons_self _ _
      exact (toDigits_no_special hm).2 rfl
  | negSucc m =>
    cases j with
    | ofNat n =>
      exfalso
      simp only [intChars] at h
      have hm : '-' ∈ Nat.toDigits 10 n := by rw [← h]; exact List.mem_cons_self _ _
      exact (toDigits_no_special hm).2 rfl
    | negSucc n =>
      simp only [intChars, List.cons.injEq, true_and] at h
      have := toDigits_inj h
      have hmn : m = n := by omega
      rw [hmn]

lemma intChars_no_underscore {i : Int} {c : Char} (h : c ∈ intChars i) : c ≠ '_' := by
  cases i with
  | ofNat m => exact (toDigits_no_special h).1
  | negSucc m =>
    rcases List.mem_cons.mp h with rfl | h2
    · decide
    · exact (toDigits_no_special h2).1

lemma split_first_underscore :
    ∀ (l1 l2 r1 r2 : List Char), '_' ∉ l1 → '_' ∉ l2 →
      l1 ++ '_' :: r1 = l2 ++ '_' :: r2 → l1 = l2 ∧ r1 = r2 := by
  intro l1
  induction l1 with
  | nil =>
    intro l2 r1 r2 h1 h2 h
    cases l2 with
    | nil =>
      simp only [List.nil_append, List.cons.injEq, true_and] at h
      exact ⟨rfl, h⟩
    | cons c l2' =>
      exfalso
      simp only [List.nil_append, List.cons_append, List.cons.injEq] at h
      exact h2 (h.1 ▸ List.mem_cons_self _ _)
  | cons c l1' ih =>
    intro l2 r1 r2 h1 h2 h
    cases l2 with
    | nil =>
      exfalso
      simp only [List.cons_append, List.nil_append, List.cons.injEq] at h
      exact h1 (h.1 ▸ List.mem_cons_self _ _)
    | cons d l2' =>
      simp only [List.cons_append, List.cons.injEq] at h
      obtain ⟨rfl, h⟩ := h
      have hr := ih l2' r1 r2 (fun hm => h1 (List.mem_cons_of_mem _ hm))
        (fun hm => h2 (List.mem_cons_of_mem _ hm)) h
      exact ⟨by rw [hr.1], hr.2⟩

lemma trackId_inj {A : String} {d1 n1 d2 n2 : Int}
    (h : trackId d1 A n1 = trackId d2 A n2) : d1 = d2 ∧ n1 = n2 := by
  have hd := congrArg String.data h
  have h1 : ("_" : String).data = ['_'] := rfl
  have h2 : ("_T" : String).data = ['_', 'T'] := rfl
  simp only [trackId, String.data_append, h1, h2, toString_int_data,
    List.append_assoc, List.cons_append, List.singleton_append, List.nil_append] at hd
  have hs := split_first_underscore (intChars d1) (intChars d2) _ _
    (fun hm => intChars_no_underscore hm rfl) (fun hm => intChars_no_underscore hm rfl) hd
  refine ⟨intChars_inj hs.1, ?_⟩
  have hr2 := List.append_cancel_left hs.2
  simp only [List.cons.injEq, true_and] at hr2
  exact intChars_inj hr2

lemma trackTriple_ok_shape {a : Album} {pt pa : String} {t : Track}
    {o : String × Metadata × String} (h : trackTriple a pt pa t = .ok o) :
    ∃ d, t.disc_no = some d ∧ o.2.2 = trackId d a.id t.no := by
  unfold trackTriple at h
  rcases hry : a.release_year with _ | ry <;> rw [hry] at h
  · exact absurd h (by simp)
  · rcases hd : t.disc_no with _ | dn <;> rw [hd] at h
    · exact absurd h (by simp)
    · rcases hc : t.composer with _ | ⟨c0, cs⟩ <;> rw [hc] at h
      · exact absurd h (by simp)
      · simp only [Except.ok.injEq] at h
        exact ⟨dn, rfl, by rw [← h]⟩

/-! ### Claim C2: per-album identifier uniqueness -/

/-- C2: for every album record and every two tracks whose synthesis
succeeds, if the tracks' (disc_no, track-number) integer pairs differ then
the generated identifiers differ. -/
theorem track_ids_unique :
    ∀ (a : Album) (pt pa : String) (t1 t2 : Track)
      (o1 o2 : String × Metadata × String),
      trackTriple a pt pa t1 = .ok o1 → trackTriple a pt pa t2 = .ok o2 →
      ¬(t1.disc_no = t2.disc_no ∧ t1.no = t2.no) → o1.2.2 ≠ o2.2.2 := by
  intro a pt pa t1 t2 o1 o2 h1 h2 hne heq
  obtain ⟨d1, hd1, hi1⟩ := trackTriple_ok_shape h1
  obtain ⟨d2, hd2, hi2⟩ := trackTriple_ok_shape h2
  rw [hi1, hi2] at heq
  obtain ⟨hdd, hnn⟩ := trackId_inj heq
  exact hne ⟨by rw [hd1, hd2, hdd], by rw [hnn]⟩

/-- A minimal album used to instantiate C2 and C10. -/
def w2Album : Album := ⟨"A", "", "", some 0, [], 0, "", none, []⟩

/-- First concrete track for the C2 witness. -/
def w2T1 : Track := ⟨1, some 1, "x", ["c"]⟩

/-- Second concrete track for the C2 witness: same disc, different number. -/
def w2T2 : Track := ⟨2, some 1, "y", ["c"]⟩

/-- Witness for C2 at two concrete tracks of one album. -/
theorem track_ids_unique_witness : ("1_A_T1" : String) ≠ "1_A_T2" :=
  track_ids_unique w2Album "" "" w2T1 w2T2
    ("passage: 評価: 不明。Title:  - x. Composer: c. score: 0. Review: ",
      ⟨"A", "", 0, "", 1, 1, "", "c"⟩, "1_A_T1")
    ("passage: 評価: 不明。Title:  - y. Composer: c. score: 0. Review: ",
      ⟨"A", "", 0, "", 1, 2, "", "c"⟩, "1_A_T2")
    (by rfl) (by rfl) (by decide)

/-! ### Claim C1: end-to-end scenario record -/

/-- The album record of the spec's end-to-end scenario: no `release_year`
key, and its single track carries no `disc_no`. -/
def c1Album : Album :=
  { id := "A1", title := "Test", label := "L", release_year := none,
    record_year := [1960], score := 5, comment := "Nice",
    personnel := some ⟨none, none, none, none, some [⟨"Jane Doe"⟩]⟩,
    tracks := [⟨1, none, "Allegro", ["Bach"]⟩] }

/-- The scenario record extended with the two keys the code requires:
`release_year` (1961) and a `disc_no` (1) on the track. -/
def c1AlbumFixed : Album :=
  { id := "A1", title := "Test", label := "L", release_year := some 1961,
    record_year := [1960], score := 5, comment := "Nice",
    personnel := some ⟨none, none, none, none, some [⟨"Jane Doe"⟩]⟩,
    tracks := [⟨1, some 1, "Allegro", ["Bach"]⟩] }

/-- The document synthesized for track 1 of the extended record. -/
def c1Doc : String :=
  "passage: 評価: 大変良い。Title: Test - Allegro. Personnel: Soloists: Jane Doe. Composer: Bach. score: 5. Review: Nice"

/-- The metadata record synthesized for track 1 of the extended record. -/
def c1Meta : Metadata := ⟨"A1", "L", 1961, "1960", 1, 1, "Jane Doe", "Bach"⟩

/-- C1 counterexample: on the scenario record exactly as the claim states
it, document synthesis does not succeed — `register_doc` reads
`raw_data["release_year"]` (and `track["disc_no"]`) unconditionally, so the
record raises a KeyError and no identifier is produced at all. -/
theorem c1_counterexample :
    synthesize c1Album = Except.error "KeyError: release_year" := by rfl

/-- C1 (amended): on the scenario record extended with `release_year` and
`disc_no := 1`, synthesis succeeds; the document for track 1 contains the
substrings "Title: Test - Allegro.", "Personnel: Soloists: Jane Doe.",
"Composer: Bach." and "score: 5." (exhibited by the explicit
decomposition); the metadata has soloist "Jane Doe", primary_composer
"Bach", album_id "A1"; and the identifier is "1_A1_T1" — the disc-number
prefix is always included, since the code reads `disc_no` unconditionally. -/
theorem c1_amended_correct :
    synthesize c1AlbumFixed = Except.ok ([c1Doc], [c1Meta], ["1_A1_T1"]) ∧
    c1Doc = "passage: 評価: 大変良い。" ++ "Title: Test - Allegro." ++ " " ++
      "Personnel: Soloists: Jane Doe." ++ " " ++ "Composer: Bach." ++ " " ++
      "score: 5." ++ " Review: Nice" ∧
    c1Meta.soloist = "Jane Doe" ∧ c1Meta.primary_composer = "Bach" ∧
    c1Meta.album_id = "A1" :=
  ⟨by rfl, by decide, rfl, rfl, rfl⟩

/-! ### Claim C10: shape of the synthesized triples -/

lemma synthTracks_spec (a : Album) (pt pa : String) :
    ∀ (ts : List Track) (ds : List String) (ms : List Metadata) (ids : List String),
      synthTracks a pt pa ts = .ok (ds, ms, ids) →
      ds.length = ts.length ∧ ms.length = ts.length ∧ ids.length = ts.length ∧
      ∀ i, i < ts.length →
        ∃ t d m idv, ts[i]? = some t ∧ ds[i]? = some d ∧ ms[i]? = some m ∧
          ids[i]? = some idv ∧ trackTriple a pt pa t = .ok (d, m, idv) := by
  intro ts
  induction ts with
  | nil =>
    intro ds ms ids h
    simp only [synthTracks, Except.ok.injEq, Prod.mk.injEq] at h
    obtain ⟨rfl, rfl, rfl⟩ := h
    exact ⟨rfl, rfl, rfl, fun i hi => absurd hi (by simp)⟩
  | cons t ts ih =>
    intro ds ms ids h
    simp only [synthTracks] at h
    rcases h1 : trackTriple a pt pa t with e | ⟨d, m, idv⟩ <;> rw [h1] at h
    · exact absurd h (by simp)
    · rcases h2 : synthTracks a pt pa ts with e | ⟨ds', ms', ids'⟩ <;> rw [h2] at h
      · exact absurd h (by simp)
      · simp only [Except.ok.injEq, Prod.mk.injEq] at h
        obtain ⟨rfl, rfl, rfl⟩ := h
        obtain ⟨hl1, hl2, hl3, hidx⟩ := ih ds' ms' ids' h2
        refine ⟨by simp [hl1], by simp [hl2], by simp [hl3], ?_⟩
        intro i hi
        cases i with
        | zero => exact ⟨t, d, m, idv, by simp, by simp, by simp, by simp, h1⟩
        | succ j =>
          obtain ⟨t', d', m', idv', ht, hd, hm, hid, htr⟩ := hidx j (by simpa using hi)
          exact ⟨t', d', m', idv', by simpa using ht, by simpa using hd,
            by simpa using hm, by simpa using hid, htr⟩

/-- C10: whenever document synthesis succeeds, the three produced lists
have equal length — the number of tracks — and the i-th entry of each is
the one produced from the i-th track; an album with an empty track list
yields three empty lists with no error. -/
theorem synthesize_lengths_correct :
    (∀ (a : Album) (ds : List String) (ms : List Metadata) (ids : List String),
       synthesize a = .ok (ds, ms, ids) →
       (ds.length = a.tracks.length ∧ ms.length = a.tracks.length ∧
        ids.length = a.tracks.length) ∧
       ∀ i, i < a.tracks.length →
         ∃ t d m idv, a.tracks[i]? = some t ∧ ds[i]? = some d ∧ ms[i]? = some m ∧
           ids[i]? = some idv ∧
           trackTriple a (personnelToText (personnelOrEmpty a))
             (primaryArtist (personnelOrEmpty a)) t = .ok (d, m, idv)) ∧
    (∀ a : Album, a.tracks = [] → synthesize a = .ok ([], [], [])) := by
  constructor
  · intro a ds ms ids h
    obtain ⟨hl1, hl2, hl3, hidx⟩ := synthTracks_spec a _ _ a.tracks ds ms ids h
    exact ⟨⟨hl1, hl2, hl3⟩, hidx⟩
  · intro a h
    unfold synthesize
    rw [h]
    rfl

/-- A one-track album used to instantiate C10. -/
def c10Album : Album := ⟨"A", "", "", some 0, [], 0, "", none, [⟨1, some 1, "x", ["c"]⟩]⟩

/-- Witness for C10: the one-track album yields three singleton lists, and
the track-free album yields three empty lists. -/
theorem synthesize_lengths_witness :
    ((["passage: 評価: 不明。Title:  - x. Composer: c. score: 0. Review: "] : List String).length
        = c10Album.tracks.length ∧
     ([(⟨"A", "", 0, "", 1, 1, "", "c"⟩ : Metadata)] : List Metadata).length
        = c10Album.tracks.length ∧
     (["1_A_T1"] : List String).length = c10Album.tracks.length) ∧
    synthesize w2Album = .ok ([], [], []) :=
  ⟨(synthesize_lengths_correct.1 c10Album
      ["passage: 評価: 不明。Title:  - x. Composer: c. score: 0. Review: "]
      [⟨"A", "", 0, "", 1, 1, "", "c"⟩] ["1_A_T1"] (by rfl)).1,
   synthesize_lengths_correct.2 w2Album rfl⟩



/-! ### Connection retry loop (doc_regist.py lines 110-131, query.py lines 14-35) -/

/-- Kind of exception a step of the loop body can raise: `connectError`
stands for `httpx.ConnectError`, `valueError` for `ValueError`, and
`otherError` for any exception outside those two classes. -/
inductive ExcKind | connectError | valueError | otherError
deriving Repr, DecidableEq

/-- The except clause catches exactly `(httpx.ConnectError, ValueError)`. -/
def isCaught : ExcKind → Bool
  | .connectError => true
  | .valueError => true
  | .otherError => false

/-- Outcome of one step of the loop body. -/
inductive StepResult | ok | fail (k : ExcKind)
deriving Repr, DecidableEq

/-- One iteration of the loop body, split at the bulk call: `connect` is
the client construction plus collection lookup, `add` is the bulk
submission (`collection.add`; in query.py, `collection.query`), reached
only when `connect` succeeded. -/
structure Attempt where
  connect : StepResult
  add : StepResult
deriving Repr, DecidableEq

/-- The run either returns normally or propagates an exception. -/
inductive RunResult | ok | raised (k : ExcKind)
deriving Repr, DecidableEq

/-- Observable trace of a run of the retry loop: number of loop
iterations, number of bulk-call invocations, the duration of every sleep
performed (in order), and the outcome. -/
structure RetryTrace where
  attempts : Nat
  adds : Nat
  sleepLog : List Nat
  result : RunResult
deriving Repr, DecidableEq

/-- The retry loop from attempt `i` with `fuel` iterations left, mirroring
doc_regist.py lines 113-131: success returns at once; an uncaught
exception propagates at once; a caught exception on the last iteration
(`r = 0`, Python `attempt == max_attempts`) is re-raised without sleeping,
and on earlier iterations the loop sleeps `delay` seconds and retries. -/
def retryAux (att : Nat → Attempt) (delay : Nat) : Nat → Nat → RetryTrace
  | _, 0 => ⟨0, 0, [], .ok⟩
  | i, r + 1 =>
    match (att i).connect with
    | .fail k =>
      if isCaught k then
        if r = 0 then ⟨1, 0, [], .raised k⟩
        else
          let t := retryAux att delay (i + 1) r
          ⟨t.attempts + 1, t.adds, delay :: t.sleepLog, t.result⟩
      else ⟨1, 0, [], .raised k⟩
    | .ok =>
      match (att i).add with
      | .ok => ⟨1, 1, [], .ok⟩
      | .fail k =>
        if isCaught k then
          if r = 0 then ⟨1, 1, [], .raised k⟩
          else
            let t := retryAux att delay (i + 1) r
            ⟨t.attempts + 1, t.adds + 1, delay :: t.sleepLog, t.result⟩
        else ⟨1, 1, [], .raised k⟩

/-- A run of `for attempt in range(1, max_attempts + 1)`. -/
def retryRun (att : Nat → Attempt) (delay maxA : Nat) : RetryTrace :=
  retryAux att delay 1 maxA

/-- The ingestion client loop: `max_attempts = 10`, `delay_sec = 2`. -/
def register_retry (att : Nat → Attempt) : RetryTrace := retryRun att 2 10

/-- The query client loop: `max_attempts = 5`, `delay_sec = 2`. -/
def query_retry (att : Nat → Attempt) : RetryTrace := retryRun att 2 5

lemma retryAux_attempts_le (att : Nat → Attempt) (delay : Nat) :
    ∀ (fuel i : Nat), (retryAux att delay i fuel).attempts ≤ fuel := by
  intro fuel
  induction fuel with
  | zero => intro i; exact Nat.le_refl 0
  | succ r ih =>
    intro i
    have hrec := ih (i + 1)
    simp only [retryAux]
    split
    · split
      · split
        · simp
        · simp
          omega
      · simp
    · split
      · simp
      · split
        · split
          · simp
          · simp
            omega
        · simp

lemma retryAux_connect_fail (att : Nat → Attempt) (delay : Nat) (kf : Nat → ExcKind) :
    ∀ (fuel i : Nat), 1 ≤ fuel →
      (∀ j, i ≤ j → j < i + fuel → (att j).connect = .fail (kf j)) →
      (∀ j, i ≤ j → j < i + fuel → isCaught (kf j) = true) →
      retryAux att delay i fuel =
        ⟨fuel, 0, List.replicate (fuel - 1) delay, .raised (kf (i + fuel - 1))⟩ := by
  intro fuel
  induction fuel with
  | zero => intro i h; omega
  | succ r ih =>
    intro i hf hconn hcaught
    simp only [retryAux, hconn i (Nat.le_refl i) (by omega),
      hcaught i (Nat.le_refl i) (by omega), if_true]
    cases r with
    | zero => simp
    | succ r' =>
      rw [if_neg (by omega)]
      rw [ih (i + 1) (by omega) (fun j h1 h2 => hconn j (by omega) (by omega))
        (fun j h1 h2 => hcaught j (by omega) (by omega))]
      have hidx : i + 1 + (r' + 1) - 1 = i + (r' + 1 + 1) - 1 := by omega
      simp [hidx, List.replicate_succ]

lemma retryAux_add_fail (att : Nat → Attempt) (delay : Nat) :
    ∀ (fuel i : Nat), 1 ≤ fuel →
      (∀ j, i ≤ j → j < i + fuel → att j = ⟨.ok, .fail .valueError⟩) →
      retryAux att delay i fuel =
        ⟨fuel, fuel, List.replicate (fuel - 1) delay, .raised .valueError⟩ := by
  intro fuel
  induction fuel with
  | zero => intro i h; omega
  | succ r ih =>
    intro i hf hatt
    simp only [retryAux, hatt i (Nat.le_refl i) (by omega), isCaught, if_true]
    cases r with
    | zero => simp
    | succ r' =>
      rw [if_neg (by omega)]
      rw [ih (i + 1) (by omega) (fun j h1 h2 => hatt j (by omega) (by omega))]
      simp [List.replicate_succ]

/-! ### Claims C5 and C3: retry policy and submission rejections -/

/-- C5: for both clients, the loop makes at most `max_attempts` attempts;
when every attempt fails at the connection phase with a caught exception
(transport-connect failure or value error), the run makes exactly
`max_attempts` attempts, sleeps the fixed delay after every failure except
the last (no backoff: every sleep entry equals the fixed delay), and
re-raises the last failure without a further sleep or attempt. -/
theorem retry_policy_correct :
    (∀ (att : Nat → Attempt) (delay maxA : Nat),
       (retryRun att delay maxA).attempts ≤ maxA) ∧
    (∀ (att : Nat → Attempt) (delay maxA : Nat) (kf : Nat → ExcKind), 1 ≤ maxA →
       (∀ j, 1 ≤ j → j ≤ maxA → (att j).connect = .fail (kf j)) →
       (∀ j, 1 ≤ j → j ≤ maxA → isCaught (kf j) = true) →
       retryRun att delay maxA =
         ⟨maxA, 0, List.replicate (maxA - 1) delay, .raised (kf maxA)⟩) ∧
    (∀ (att : Nat → Attempt) (kf : Nat → ExcKind),
       (∀ j, 1 ≤ j → j ≤ 10 → (att j).connect = .fail (kf j)) →
       (∀ j, 1 ≤ j → j ≤ 10 → isCaught (kf j) = true) →
       register_retry att = ⟨10, 0, List.replicate 9 2, .raised (kf 10)⟩) ∧
    (∀ (att : Nat → Attempt) (kf : Nat → ExcKind),
       (∀ j, 1 ≤ j → j ≤ 5 → (att j).connect = .fail (kf j)) →
       (∀ j, 1 ≤ j → j ≤ 5 → isCaught (kf j) = true) →
       query_retry att = ⟨5, 0, List.replicate 4 2, .raised (kf 5)⟩) := by
  have hmain : ∀ (att : Nat → Attempt) (delay maxA : Nat) (kf : Nat → ExcKind), 1 ≤ maxA →
      (∀ j, 1 ≤ j → j ≤ maxA → (att j).connect = .fail (kf j)) →
      (∀ j, 1 ≤ j → j ≤ maxA → isCaught (kf j) = true) →
      retryRun att delay maxA =
        ⟨maxA, 0, List.replicate (maxA - 1) delay, .raised (kf maxA)⟩ := by
    intro att delay maxA kf hm hconn hcaught
    unfold retryRun
    rw [retryAux_connect_fail att delay kf maxA 1 hm
      (fun j h1 h2 => hconn j h1 (by omega)) (fun j h1 h2 => hcaught j h1 (by omega))]
    have hidx : 1 + maxA - 1 = maxA := by omega
    rw [hidx]
  refine ⟨?_, hmain, ?_, ?_⟩
  · intro att delay maxA
    exact retryAux_attempts_le att delay maxA 1
  · intro att kf hconn hcaught
    exact hmain att 2 10 kf (by omega) hconn hcaught
  · intro att kf hconn hcaught
    exact hmain att 2 5 kf (by omega) hconn hcaught

/-- Witness for C5 with every attempt failing to connect. -/
theorem retry_policy_witness :
    register_retry (fun _ => ⟨.fail .connectError, .ok⟩) =
      ⟨10, 0, List.replicate 9 2, .raised .connectError⟩ ∧
    query_retry (fun _ => ⟨.fail .connectError, .ok⟩) =
      ⟨5, 0, List.replicate 4 2, .raised .connectError⟩ ∧
    (retryRun (fun _ => ⟨.fail .connectError, .ok⟩) 2 3).attempts ≤ 3 :=
  ⟨retry_policy_correct.2.2.1 _ (fun _ => .connectError)
      (fun j h1 h2 => rfl) (fun j h1 h2 => rfl),
   retry_policy_correct.2.2.2 _ (fun _ => .connectError)
      (fun j h1 h2 => rfl) (fun j h1 h2 => rfl),
   retry_policy_correct.1 _ 2 3⟩

/-- Attempts whose bulk call always fails with a `ValueError` rejection. -/
def c3Att : Nat → Attempt := fun _ => ⟨.ok, .fail .valueError⟩

/-- Attempts whose bulk call always fails with an uncaught exception. -/
def c3AttU : Nat → Attempt := fun _ => ⟨.ok, .fail .otherError⟩

/-- C3 counterexample: a rejection of the bulk `collection.add` call that
is raised as a `ValueError` IS retried — the except clause around the
whole body catches it, and with `max_attempts = 10` the same batch is
submitted ten times, contradicting "no second submission of the same
batch". -/
theorem c3_counterexample :
    (register_retry c3Att).adds = 10 ∧ ¬(register_retry c3Att).adds ≤ 1 ∧
    (register_retry c3Att).result = .raised .valueError := by decide

/-- C3 (amended): a rejection of the bulk call raised as an exception
outside the caught classes propagates at once — one submission, no retry;
but a rejection raised as `ValueError` is caught like a connection
failure, and the same batch is resubmitted on every attempt, up to
`max_attempts` times, the last failure then being re-raised. -/
theorem c3_amended_correct :
    ∀ (att : Nat → Attempt) (delay maxA : Nat), 1 ≤ maxA →
      (∀ k, (att 1).connect = .ok → (att 1).add = .fail k → isCaught k = false →
         retryRun att delay maxA = ⟨1, 1, [], .raised k⟩) ∧
      ((∀ j, 1 ≤ j → j ≤ maxA → att j = ⟨.ok, .fail .valueError⟩) →
         retryRun att delay maxA =
           ⟨maxA, maxA, List.replicate (maxA - 1) delay, .raised .valueError⟩) := by
  intro att delay maxA hm
  constructor
  · intro k hc ha hk
    cases maxA with
    | zero => omega
    | succ r =>
      unfold retryRun
      simp only [retryAux, hc, ha, hk]
      simp
  · intro hatt
    unfold retryRun
    rw [retryAux_add_fail att delay maxA 1 hm (fun j h1 h2 => hatt j h1 (by omega))]

/-- Witness for C3 (amended) at concrete attempt outcomes. -/
theorem c3_amended_witness :
    retryRun c3AttU 2 10 = ⟨1, 1, [], .raised .otherError⟩ ∧
    retryRun c3Att 2 10 = ⟨10, 10, List.replicate 9 2, .raised .valueError⟩ :=
  ⟨(c3_amended_correct c3AttU 2 10 (by omega)).1 .otherError rfl rfl rfl,
   (c3_amended_correct c3Att 2 10 (by omega)).2 (fun j h1 h2 => rfl)⟩



/-! ### Ledger-driven main loop (doc_regist.py lines 133-151) and claim C4 -/

/-- Result of a run of `main`: the final ledger lines (`done.txt`), the
files on which `register_doc` was invoked, in order, and whether the run
completed (`false` when a register failure aborted it). -/
structure IngestResult where
  ledger : List String
  attempted : List String
  completed : Bool
deriving Repr, DecidableEq

/-- The file loop of `main`: `outcome f = true` models `register_doc`
returning on file `f`, `false` models it raising, which aborts the run.
A file whose name is in the ledger is skipped outright; after a successful
register the file name is appended to the ledger before the next file is
processed. -/
def ingestLoop (outcome : String → Bool) :
    List String → List String → List String → IngestResult
  | [], led, _att => ⟨led, _att, true⟩
  | f :: fs, led, att =>
    if f ∈ led then ingestLoop outcome fs led att
    else if outcome f then ingestLoop outcome fs (led ++ [f]) (att ++ [f])
    else ⟨led, att ++ [f], false⟩

/-- A run of `main` over the directory listing `files`, starting from the
ledger lines `ledger0` loaded from `done.txt`. -/
def ingest (outcome : String → Bool) (files ledger0 : List String) : IngestResult :=
  ingestLoop outcome files ledger0 []

lemma ingestLoop_att (outcome : String → Bool) :
    ∀ (fs led att : List String),
      ingestLoop outcome fs led att =
        ⟨(ingestLoop outcome fs led []).ledger,
         att ++ (ingestLoop outcome fs led []).attempted,
         (ingestLoop outcome fs led []).completed⟩ := by
  intro fs
  induction fs with
  | nil => intro led att; simp [ingestLoop]
  | cons f fs ih =>
    intro led att
    simp only [ingestLoop]
    by_cases h1 : f ∈ led
    · simp only [if_pos h1]
      exact ih led att
    · by_cases h2 : outcome f
      · simp only [if_neg h1, if_pos h2]
        rw [ih (led ++ [f]) (att ++ [f]), ih (led ++ [f]) ([] ++ [f])]
        simp
      · simp [if_neg h1, h2]

lemma ingest_ledger (outcome : String → Bool) :
    ∀ (fs led : List String),
      (ingest outcome fs led).ledger =
        led ++ (ingest outcome fs led).attempted.filter outcome := by
  intro fs
  induction fs with
  | nil => intro led; simp [ingest, ingestLoop]
  | cons f fs ih =>
    intro led
    simp only [ingest, ingestLoop]
    by_cases h1 : f ∈ led
    · simp only [if_pos h1]
      exact ih led
    · by_cases h2 : outcome f
      · simp only [if_neg h1, if_pos h2]
        rw [ingestLoop_att outcome fs (led ++ [f]) ([] ++ [f])]
        have hbase := ih (led ++ [f])
        simp only [ingest] at hbase
        simp [hbase, h2, List.filter_append, List.append_assoc]
      · simp [if_neg h1, h2]

lemma ingest_skip (outcome : String → Bool) :
    ∀ (fs led : List String) (f : String), f ∈ led →
      f ∉ (ingest outcome fs led).attempted := by
  intro fs
  induction fs with
  | nil => intro led f hf; simp [ingest, ingestLoop]
  | cons g fs ih =>
    intro led f hf
    simp only [ingest, ingestLoop]
    by_cases h1 : g ∈ led
    · simp only [if_pos h1]
      exact ih led f hf
    · have hfg : f ≠ g := fun h => h1 (h ▸ hf)
      by_cases h2 : outcome g
      · simp only [if_neg h1, if_pos h2]
        rw [ingestLoop_att outcome fs (led ++ [g]) ([] ++ [g])]
        intro hmem
        simp only [List.nil_append, List.cons_append, List.mem_cons, List.nil_append] at hmem
        rcases hmem with rfl | hmem2
        · exact hfg rfl
        · exact ih (led ++ [g]) f (List.mem_append_left _ hf) (by simpa using hmem2)
      · simp [if_neg h1, h2, hfg]

lemma ingest_covers (outcome : String → Bool) :
    ∀ (fs led : List String), (ingest outcome fs led).completed = true →
      ∀ f ∈ fs, f ∈ (ingest outcome fs led).ledger := by
  intro fs
  induction fs with
  | nil => intro led hc f hf; simp at hf
  | cons g fs ih =>
    intro led hc f hf
    simp only [ingest, ingestLoop] at hc ⊢
    by_cases h1 : g ∈ led
    · simp only [if_pos h1] at hc ⊢
      rcases List.mem_cons.mp hf with rfl | hf2
      · have hl := ingest_ledger outcome fs led
        simp only [ingest] at hl
        rw [hl]
        exact List.mem_append_left _ h1
      · exact ih led hc f hf2
    · by_cases h2 : outcome g
      · simp only [if_neg h1, if_pos h2] at hc ⊢
        rw [ingestLoop_att outcome fs (led ++ [g]) ([] ++ [g])] at hc ⊢
        simp only [] at hc ⊢
        rcases List.mem_cons.mp hf with rfl | hf2
        · have hl := ingest_ledger outcome fs (led ++ [f])
          simp only [ingest] at hl
          rw [hl]
          exact List.mem_append_left _ (List.mem_append_right _ (List.mem_singleton.mpr rfl))
        · exact ih (led ++ [g]) hc f hf2
      · simp [if_neg h1, h2] at hc

lemma ingest_noop (outcome : String → Bool) :
    ∀ (fs led : List String), (∀ f ∈ fs, f ∈ led) →
      ingest outcome fs led = ⟨led, [], true⟩ := by
  intro fs
  induction fs with
  | nil => intro led _h; rfl
  | cons g fs ih =>
    intro led h
    simp only [ingest, ingestLoop, if_pos (h g (List.mem_cons_self g fs))]
    exact ih led (fun f hf => h f (List.mem_cons_of_mem _ hf))

/-- C4: a file in the startup ledger is never attempted (no synthesis, no
submission); the ledger after a run is the initial ledger plus exactly the
successfully registered files, in order (never updated on failure); after
a completed run, rerunning over the same listing attempts nothing; and in
the two-file scenario where A succeeds and then X fails, the run aborts
with ledger extended by A only, and a rerun skips A and retries exactly X. -/
theorem ledger_correct :
    (∀ (outcome : String → Bool) (files led : List String) (f : String),
       f ∈ led → f ∉ (ingest outcome files led).attempted) ∧
    (∀ (outcome : String → Bool) (files led : List String),
       (ingest outcome files led).ledger =
         led ++ (ingest outcome files led).attempted.filter outcome) ∧
    (∀ (o1 o2 : String → Bool) (files led : List String),
       (ingest o1 files led).completed = true →
       ingest o2 files (ingest o1 files led).ledger =
         ⟨(ingest o1 files led).ledger, [], true⟩) ∧
    (∀ (outcome : String → Bool) (led : List String) (A X : String),
       A ∉ led → X ∉ led → A ≠ X → outcome A = true → outcome X = false →
       ingest outcome [A, X] led = ⟨led ++ [A], [A, X], false⟩ ∧
       ∀ o2 : String → Bool, (ingest o2 [A, X] (led ++ [A])).attempted = [X]) := by
  refine ⟨ingest_skip, ingest_ledger, ?_, ?_⟩
  · intro o1 o2 files led hc
    exact ingest_noop o2 files _ (ingest_covers o1 files led hc)
  · intro outcome led A X hA hX hAX hoA hoX
    have hXmem : X ∉ led ++ [A] := by
      intro hm
      rcases List.mem_append.mp hm with hm1 | hm2
      · exact hX hm1
      · exact hAX (List.mem_singleton.mp hm2).symm
    constructor
    · simp only [ingest, ingestLoop, if_neg hA, if_pos hoA, if_neg hXmem, hoX]
      simp
    · intro o2
      have hAmem : A ∈ led ++ [A] := List.mem_append_right _ (List.mem_singleton.mpr rfl)
      simp only [ingest, ingestLoop, if_pos hAmem, if_neg hXmem]
      by_cases h2 : o2 X
      · simp [if_pos h2, ingestLoop]
      · simp [h2]

/-- Outcome function for the C4 scenario: file "a" succeeds, "x" fails. -/
def c4OutA : String → Bool := fun f => f == "a"

/-- Witness for C4 at concrete listings and outcomes. -/
theorem ledger_correct_witness :
    ("a" ∉ (ingest (fun _ => true) ["a", "b"] ["a"]).attempted) ∧
    (ingest (fun _ => true) ["a"] (ingest (fun _ => true) ["a"] []).ledger =
      ⟨(ingest (fun _ => true) ["a"] []).ledger, [], true⟩) ∧
    (ingest c4OutA ["a", "x"] [] = ⟨[] ++ ["a"], ["a", "x"], false⟩) ∧
    ((ingest (fun _ => true) ["a", "x"] ([] ++ ["a"])).attempted = ["x"]) :=
  ⟨ledger_correct.1 (fun _ => true) ["a", "b"] ["a"] "a" (by decide),
   ledger_correct.2.2.1 (fun _ => true) (fun _ => true) ["a"] [] (by decide),
   (ledger_correct.2.2.2 c4OutA [] "a" "x" (by decide) (by decide) (by decide)
      (by decide) (by decide)).1,
   (ledger_correct.2.2.2 c4OutA [] "a" "x" (by decide) (by decide) (by decide)
      (by decide) (by decide)).2 (fun _ => true)⟩


/-! ### Validation utility (src/json_chk.py) and claim C9 -/

/-- Embedding of `json_chk.main` (json_chk.py lines 6-28): `files` is the
directory listing, `parses f = true` when the file parses as JSON.
Returns the value `main` returns (0 or 1, which the `__main__` wrapper
turns into the process exit status) and the printed lines.  The function
only reads: it is pure, mirroring that the utility performs no mutation. -/
def json_chk (files : List String) (parses : String → Bool) : Nat × List String :=
  let failed_ones := files.filter (fun f => !(parses f))
  if failed_ones = [] then (0, ["All good."])
  else (1, ("Found " ++ toString failed_ones.length ++ " errors.") ::
    failed_ones.map (fun f => " - " ++ f))

/-- C9: the run returns 0 and prints exactly "All good." if and only if
every file in the directory parses as JSON; otherwise it returns 1 and
prints the count of failing files followed by one line per failing file,
every failing file appearing in the output. -/
theorem json_chk_correct :
    ∀ (files : List String) (parses : String → Bool),
      ((json_chk files parses).1 = 0 ↔ ∀ f ∈ files, parses f = true) ∧
      ((json_chk files parses).1 = 0 → (json_chk files parses).2 = ["All good."]) ∧
      ((json_chk files parses).1 ≠ 0 →
        (json_chk files parses).1 = 1 ∧
        (json_chk files parses).2 =
          ("Found " ++ toString (files.filter (fun f => !(parses f))).length ++ " errors.") ::
            (files.filter (fun f => !(parses f))).map (fun f => " - " ++ f) ∧
        ∀ f ∈ files, parses f = false → (" - " ++ f) ∈ (json_chk files parses).2) := by
  intro files parses
  by_cases h : files.filter (fun f => !(parses f)) = []
  · have hall : ∀ f ∈ files, parses f = true := by
      intro f hf
      by_contra hne
      have : f ∈ files.filter (fun f => !(parses f)) :=
        List.mem_filter.mpr ⟨hf, by simp [Bool.not_eq_true] at hne ⊢; exact hne⟩
      simp [h] at this
    refine ⟨?_, ?_, ?_⟩
    · simp only [json_chk, h, if_true]
      exact ⟨fun _ => hall, fun _ => trivial⟩
    · simp [json_chk, h]
    · simp [json_chk, h]
  · refine ⟨?_, ?_, ?_⟩
    · simp only [json_chk, if_neg h]
      constructor
      · intro h0; exact absurd h0 (by simp)
      · intro hall
        exfalso
        apply h
        rw [List.filter_eq_nil_iff]
        intro f hf
        simp [hall f hf]
    · simp [json_chk, h]
    · intro _h1
      refine ⟨by simp [json_chk, h], by simp [json_chk, h], ?_⟩
      intro f hf hpf
      have hfmem : f ∈ files.filter (fun f => !(parses f)) :=
        List.mem_filter.mpr ⟨hf, by simp [hpf]⟩
      simp only [json_chk, if_neg h]
      exact List.mem_cons_of_mem _ (List.mem_map_of_mem _ hfmem)

/-- Witness for C9 on concrete one-file listings. -/
theorem json_chk_witness :
    (json_chk ["a"] (fun _ => true)).2 = ["All good."] ∧
    (json_chk ["a"] (fun _ => false)).1 = 1 ∧
    (" - " ++ "a") ∈ (json_chk ["a"] (fun _ => false)).2 ∧
    (∀ f ∈ (["a"] : List String), (fun _ => true) f = true) :=
  ⟨(json_chk_correct ["a"] (fun _ => true)).2.1 (by decide),
   ((json_chk_correct ["a"] (fun _ => false)).2.2 (by decide)).1,
   ((json_chk_correct ["a"] (fun _ => false)).2.2 (by decide)).2.2 "a"
     (by decide) rfl,
   ((json_chk_correct ["a"] (fun _ => true)).1).mp (by decide)⟩
